import Mathlib

/-!
Verification of the cmdstanpy repository: a shallow embedding of the
packaging script `setup.py` (the code under version control) and of the
Run Orchestration & Output Ingestion subsystem described by the design
specification.  Strings are modelled as `List Char`; file contents are
character lists; the filesystem and subprocesses are modelled by passing
contents and process results explicitly.
-/

namespace SetupPy

/-- The single-quote character, written via its code point. -/
def quote : Char := Char.ofNat 39

/-- The newline character. -/
def nl : Char := Char.ofNat 10

/-- Greedy-free capture of `(.*?)` followed by a closing single quote:
consume characters up to the first quote; fail on a newline (`.` does not
match a newline) or on end of input. -/
def capture : List Char → Option (List Char)
  | [] => none
  | c :: rest =>
    if c = quote then some []
    else if c = nl then none
    else (capture rest).map (fun t => c :: t)

/-- The literal part of the pattern searched by `get_version` in
`setup.py`: the text before the capture group, with its opening quote. -/
def versionPat : List Char := ("__version__ = ").data ++ [quote]

/-- One attempt of the regex at the current position: the literal prefix
must match, then the capture runs. -/
def tryHere (s : List Char) : Option (List Char) :=
  if versionPat.isPrefixOf s then capture (s.drop versionPat.length) else none

/-- Leftmost search, as `re.search` does: try every position from the
left, returning the first successful capture. -/
def vsearch : List Char → Option (List Char)
  | [] => none
  | c :: rest =>
    match tryHere (c :: rest) with
    | some t => some t
    | none => vsearch rest

/-- Embedding of `get_version` from `setup.py`: search the contents of
`cmdstanpy/_version.py` for the first occurrence of the version pattern;
`none` models the exception raised by `.group(1)` on a failed search. -/
def get_version (contents : List Char) : Option (List Char) :=
  vsearch contents

/-- Declarative reading of a regex occurrence at position `i` capturing
`t`: the literal prefix occurs at `i`, followed by `t` and a closing
quote, where `t` contains no quote (non-greedy: first closing quote) and
no newline (`.` does not cross lines). -/
def MatchAt (s : List Char) (i : Nat) (t : List Char) : Prop :=
  (∃ suf, s.drop i = versionPat ++ t ++ quote :: suf) ∧ quote ∉ t ∧ nl ∉ t

/-- Python whitespace as used by `str.strip()`. -/
def isPyWs (c : Char) : Bool :=
  c = Char.ofNat 32 ∨ c = Char.ofNat 9 ∨ c = Char.ofNat 10 ∨
  c = Char.ofNat 13 ∨ c = Char.ofNat 11 ∨ c = Char.ofNat 12

/-- Embedding of Python `str.strip()`: drop whitespace from both ends. -/
def pyStrip (s : List Char) : List Char :=
  ((s.dropWhile isPyWs).reverse.dropWhile isPyWs).reverse

/-- Embedding of Python `str.split` on a one-character separator: split at
every occurrence, keeping empty pieces. -/
def splitOnChar (sep : Char) : List Char → List (List Char)
  | [] => [[]]
  | c :: rest =>
    if c = sep then [] :: splitOnChar sep rest
    else
      match splitOnChar sep rest with
      | [] => [[c]]
      | l :: ls => (c :: l) :: ls

/-- The `_classifiers` triple-quoted string literal of `setup.py`,
newlines written explicitly. -/
def _classifiers : List Char :=
  ("\nProgramming Language :: Python :: 3\nLicense :: OSI Approved :: Apache Software License\nOperating System :: OS Independent\nDevelopment Status :: 4 - Beta\nIntended Audience :: Science/Research\nNatural Language :: English\nProgramming Language :: Python\nTopic :: Scientific/Engineering :: Information Analysis\n").data

/-- The `classifiers=` argument of the `setuptools.setup` call:
`_classifiers.strip().split` on newline. -/
def classifiers : List (List Char) :=
  splitOnChar nl (pyStrip _classifiers)

/-- Embedding of `readme_contents` from `setup.py`: it returns the file
contents of `README.md` unchanged. -/
def readme_contents (readme : List Char) : List Char := readme

/-- The arguments `setup.py` passes to `setuptools.setup`, as far as they
depend on data: the constant fields plus the two computed from files. -/
structure SetupArgs where
  name : List Char
  version : List Char
  description : List Char
  long_description : List Char
  author : List Char
  url : List Char
  packages : List (List Char)
  scripts : List (List Char)
  install_requires : List (List Char)
  classifiers_arg : List (List Char)
deriving DecidableEq

/-- Embedding of the `setuptools.setup(...)` call: assembled from the
contents of `README.md` and `cmdstanpy/_version.py`; `none` models the
exception propagating out of `get_version` before `setup` is called. -/
def setupArgs (readme versionFile : List Char) : Option SetupArgs :=
  (get_version versionFile).map (fun v =>
    { name := ("cmdstanpy").data
      version := v
      description := ("Python interface to CmdStan").data
      long_description := readme_contents readme
      author := ("Stan Dev Team").data
      url := ("https://github.com/stan-dev/cmdstanpy").data
      packages := [("cmdstanpy").data]
      scripts := [("bin/install_cmdstan").data]
      install_requires := [("numpy").data, ("pandas").data]
      classifiers_arg := classifiers })

end SetupPy

namespace Orchestration

/-- Decidable equality of fallible results, for concrete evaluation in
theorems. -/
instance {ε α : Type} [DecidableEq ε] [DecidableEq α] :
    DecidableEq (Except ε α) := fun x y =>
  match x, y with
  | .ok a, .ok b =>
    if h : a = b then isTrue (by rw [h])
    else isFalse (fun hc => by cases hc; exact h rfl)
  | .error e, .error f =>
    if h : e = f then isTrue (by rw [h])
    else isFalse (fun hc => by cases hc; exact h rfl)
  | .ok _, .error _ => isFalse (fun hc => by cases hc)
  | .error _, .ok _ => isFalse (fun hc => by cases hc)

/-- Modelled from the spec: decimal digit rendering for command-line
argument values and output numbers. -/
def digitToChar (d : Nat) : Char :=
  if d = 1 then Char.ofNat 49 else if d = 2 then Char.ofNat 50
  else if d = 3 then Char.ofNat 51 else if d = 4 then Char.ofNat 52
  else if d = 5 then Char.ofNat 53 else if d = 6 then Char.ofNat 54
  else if d = 7 then Char.ofNat 55 else if d = 8 then Char.ofNat 56
  else if d = 9 then Char.ofNat 57 else Char.ofNat 48

/-- Inverse of `digitToChar` on decimal digit characters. -/
def charToDigit (c : Char) : Option Nat :=
  if c = Char.ofNat 48 then some 0 else if c = Char.ofNat 49 then some 1
  else if c = Char.ofNat 50 then some 2 else if c = Char.ofNat 51 then some 3
  else if c = Char.ofNat 52 then some 4 else if c = Char.ofNat 53 then some 5
  else if c = Char.ofNat 54 then some 6 else if c = Char.ofNat 55 then some 7
  else if c = Char.ofNat 56 then some 8 else if c = Char.ofNat 57 then some 9
  else none

/-- Digit extraction, most significant first, driven by a fuel bound so
the recursion is structural. -/
def natToStrGo : Nat → Nat → List Char
  | 0, _ => []
  | fuel + 1, n =>
    if n = 0 then []
    else natToStrGo fuel (n / 10) ++ [digitToChar (n % 10)]

/-- Render a natural number in decimal (most significant digit first). -/
def natToStr (n : Nat) : List Char :=
  if n = 0 then [Char.ofNat 48] else natToStrGo n n

/-- Left-to-right decimal accumulator. -/
def parseNatGo (acc : Nat) : List Char → Option Nat
  | [] => some acc
  | c :: rest =>
    match charToDigit c with
    | some d => parseNatGo (acc * 10 + d) rest
    | none => none

/-- Parse a nonempty all-digit character list as a natural number. -/
def parseNat (cs : List Char) : Option Nat :=
  match cs with
  | [] => none
  | _ => parseNatGo 0 cs

/-- Split a character list at the first occurrence of `sep`; `none` when
`sep` does not occur. -/
def splitFirst (sep : Char) : List Char → Option (List Char × List Char)
  | [] => none
  | c :: rest =>
    if c = sep then some ([], rest)
    else (splitFirst sep rest).map (fun p => (c :: p.1, p.2))

/-- Modelled from the spec: a positive rational argument value (such as a
fixed step size) rendered as numerator, slash, denominator. -/
def ratToStr (q : ℚ) : List Char :=
  natToStr q.num.toNat ++ Char.ofNat 47 :: natToStr q.den

/-- Parse a rational rendered by `ratToStr`. -/
def parseRat (cs : List Char) : Option ℚ :=
  match splitFirst (Char.ofNat 47) cs with
  | some (a, b) =>
    match parseNat a, parseNat b with
    | some n, some d => some (mkRat n d)
    | _, _ => none
  | none => none

/-- Modelled from the spec: immutable compiled-model handle — executable
path and model name (the parameter schema is not needed by the claims). -/
structure CompiledModel where
  exePath : List Char
  modelName : List Char
deriving DecidableEq

/-- Modelled from the spec: the run mode as a tagged variant, each
carrying its own options (sampling, optimization, variational,
generated quantities, laplace). -/
inductive Method where
  | sample (numSamples numWarmup thin : Nat) (adapt : Bool) (stepSize : Option ℚ)
  | optimize (iter : Nat)
  | variational (iter gradSamples : Nat)
  | generateQuantities (fittedParams : List Char)
  | laplace (modeFile : List Char)
deriving DecidableEq

/-- Modelled from the spec: the run configuration — run mode, base seed,
output file, optional init file, and verbatim passthrough key-value
arguments.  The requested chain count is passed to the orchestrator
separately, as in the spec. -/
structure RunConfig where
  method : Method
  seed : Nat
  outputFile : List Char
  initPath : Option (List Char)
  extraArgs : List (List Char × List Char)
deriving DecidableEq

/-- Modelled from the spec: configuration errors detected before any
process launches. -/
inductive ConfigError where
  | mutuallyExclusive
  | badStepSize
  | passthroughCollision
deriving DecidableEq

/-- The equals-sign character used between an argument key and value. -/
def eqChar : Char := Char.ofNat 61

/-- The argument keys the builder itself manages for a given method. -/
def managedKeys (m : Method) : List (List Char) :=
  (match m with
   | .sample _ _ _ _ _ =>
     [("num_samples").data, ("num_warmup").data, ("thin").data,
      ("adapt").data, ("step_size").data]
   | .optimize _ => [("iter").data]
   | .variational _ _ => [("iter").data, ("grad_samples").data]
   | .generateQuantities _ => [("fitted_params").data]
   | .laplace _ => [("mode").data]) ++
  [("id").data, ("random_seed").data, ("output_file").data, ("init").data]

/-- Modelled from the spec: passthrough keys must not collide with the
keys the builder manages, and must be usable as keys. -/
def validateExtras (cfg : RunConfig) : Except ConfigError Unit :=
  if cfg.extraArgs.all (fun kv =>
      decide (kv.1 ∉ managedKeys cfg.method) && decide (eqChar ∉ kv.1)
        && decide (kv.1 ≠ [])) then
    .ok ()
  else .error .passthroughCollision

/-- Modelled from the spec: validation of a run configuration before
argument construction — mutually exclusive options (a fixed step size
with adaptation enabled), an ill-formed step size, and passthrough keys
colliding with managed keys (or unusable as keys). -/
def validate (cfg : RunConfig) : Except ConfigError Unit :=
  match cfg.method with
  | .sample _ _ _ adapt stepSize =>
    if adapt ∧ stepSize.isSome then .error .mutuallyExclusive
    else if (match stepSize with | some q => decide (q.num ≤ 0) | none => false) then
      .error .badStepSize
    else validateExtras cfg
  | _ => validateExtras cfg

/-- Render a key-value command-line token `key=value`. -/
def kvToken (key value : List Char) : List Char := key ++ eqChar :: value

/-- The method keyword and the method-specific tokens, in fixed order. -/
def methodArgs : Method → List (List Char)
  | .sample n w t adapt stepSize =>
    ("sample").data ::
      kvToken ("num_samples").data (natToStr n) ::
      kvToken ("num_warmup").data (natToStr w) ::
      kvToken ("thin").data (natToStr t) ::
      kvToken ("adapt").data (if adapt then [Char.ofNat 49] else [Char.ofNat 48]) ::
      (match stepSize with
       | some q => [kvToken ("step_size").data (ratToStr q)]
       | none => [])
  | .optimize iter =>
    [("optimize").data, kvToken ("iter").data (natToStr iter)]
  | .variational iter gs =>
    [("variational").data, kvToken ("iter").data (natToStr iter),
     kvToken ("grad_samples").data (natToStr gs)]
  | .generateQuantities fp =>
    [("generate_quantities").data, kvToken ("fitted_params").data fp]
  | .laplace mf =>
    [("laplace").data, kvToken ("mode").data mf]

/-- Modelled from the spec: `ArgumentBuilder.build` — a pure function
from model, configuration and chain id to the ordered argument list:
executable path, method keyword and method-specific tokens, `id=`,
`random_seed=`, `output_file=`, `init=` when provided, then the verbatim
passthrough arguments. -/
def build (model : CompiledModel) (cfg : RunConfig) (chainId : Nat) : List (List Char) :=
  model.exePath ::
    methodArgs cfg.method ++
    [kvToken ("id").data (natToStr chainId),
     kvToken ("random_seed").data (natToStr cfg.seed),
     kvToken ("output_file").data cfg.outputFile] ++
    (match cfg.initPath with
     | some p => [kvToken ("init").data p]
     | none => []) ++
    cfg.extraArgs.map (fun kv => kvToken kv.1 kv.2)

/-- Split a `key=value` token at its first equals sign and demand the
given key. -/
def expectKey (key tok : List Char) : Option (List Char) :=
  match splitFirst eqChar tok with
  | some kv => if kv.1 = key then some kv.2 else none
  | none => none

/-- Decode the two-valued `adapt` token value. -/
def parseBool01 (cs : List Char) : Option Bool :=
  if cs = [Char.ofNat 49] then some true
  else if cs = [Char.ofNat 48] then some false
  else none

/-- Decode the method keyword and the method-specific tokens, returning
the leftover tokens. -/
def parseMethod : List (List Char) → Option (Method × List (List Char))
  | [] => none
  | kw :: rest =>
    if kw = ("sample").data then
      match rest with
      | ns :: nw :: th :: ad :: rest2 =>
        match (expectKey ("num_samples").data ns).bind parseNat,
              (expectKey ("num_warmup").data nw).bind parseNat,
              (expectKey ("thin").data th).bind parseNat,
              (expectKey ("adapt").data ad).bind parseBool01 with
        | some n, some w, some t, some a =>
          match rest2 with
          | s :: rest3 =>
            match (expectKey ("step_size").data s).bind parseRat with
            | some q => some (.sample n w t a (some q), rest3)
            | none => some (.sample n w t a none, rest2)
          | [] => some (.sample n w t a none, [])
        | _, _, _, _ => none
      | _ => none
    else if kw = ("optimize").data then
      match rest with
      | it :: rest2 =>
        match (expectKey ("iter").data it).bind parseNat with
        | some n => some (.optimize n, rest2)
        | none => none
      | _ => none
    else if kw = ("variational").data then
      match rest with
      | it :: gs :: rest2 =>
        match (expectKey ("iter").data it).bind parseNat,
              (expectKey ("grad_samples").data gs).bind parseNat with
        | some n, some g => some (.variational n g, rest2)
        | _, _ => none
      | _ => none
    else if kw = ("generate_quantities").data then
      match rest with
      | fp :: rest2 =>
        match expectKey ("fitted_params").data fp with
        | some p => some (.generateQuantities p, rest2)
        | none => none
      | _ => none
    else if kw = ("laplace").data then
      match rest with
      | mf :: rest2 =>
        match expectKey ("mode").data mf with
        | some p => some (.laplace p, rest2)
        | none => none
      | _ => none
    else none

/-- Decode the trailing passthrough tokens back into key-value pairs. -/
def parseExtras : List (List Char) → Option (List (List Char × List Char))
  | [] => some []
  | t :: rest =>
    match splitFirst eqChar t with
    | some kv => (parseExtras rest).map (fun l => kv :: l)
    | none => none

/-- Decode an argument list produced by `build` back into the executable
path, the configuration fields the builder manages, and the chain id. -/
def parseArgs (toks : List (List Char)) : Option (List Char × RunConfig × Nat) :=
  match toks with
  | [] => none
  | exe :: rest =>
    match parseMethod rest with
    | none => none
    | some (m, rest2) =>
      match rest2 with
      | idTok :: seedTok :: outTok :: rest3 =>
        match (expectKey ("id").data idTok).bind parseNat,
              (expectKey ("random_seed").data seedTok).bind parseNat,
              expectKey ("output_file").data outTok with
        | some i, some s, some out =>
          let step :=
            match rest3 with
            | t :: r =>
              match expectKey ("init").data t with
              | some p => (some p, r)
              | none => ((none : Option (List Char)), rest3)
            | [] => (none, [])
          match parseExtras step.2 with
          | some extras =>
            some (exe, ⟨m, s, out, step.1, extras⟩, i)
          | none => none
        | _, _, _ => none
      | _ => none

/-- The comment marker of the output format. -/
def hashChar : Char := Char.ofNat 35

/-- The column separator of the output format. -/
def commaChar : Char := Char.ofNat 44

/-- The index separator in flattened parameter names. -/
def dotChar : Char := Char.ofNat 46

/-- The minus sign of numeric values. -/
def minusChar : Char := Char.ofNat 45

/-- Modelled from the spec: a structured parameter name — base name plus
the index path recovered from the flattened column name. -/
structure ParamName where
  base : List Char
  idx : List Nat
deriving DecidableEq

/-- Decode a list of index segments, all decimal numbers. -/
def parseIdx : List (List Char) → Option (List Nat)
  | [] => some []
  | s :: rest =>
    match parseNat s with
    | some n => (parseIdx rest).map (fun l => n :: l)
    | none => none

/-- Modelled from the spec: reconstruct a flattened column name such as
`theta.1` into base name and indices; a name whose dotted suffixes are
not all numeric stays a plain base name. -/
def parseParamName (cs : List Char) : ParamName :=
  match SetupPy.splitOnChar dotChar cs with
  | [] => ⟨cs, []⟩
  | base :: rest =>
    match parseIdx rest with
    | some idx => ⟨base, idx⟩
    | none => ⟨cs, []⟩

/-- The flattened column name a structured parameter name stands for. -/
def flatName (p : ParamName) : List Char :=
  p.base ++ (p.idx.map (fun n => dotChar :: natToStr n)).flatten

/-- The rational value of a decimal with sign, integer part, fractional
part and fractional digit count. -/
def decValue (neg : Bool) (n f k : Nat) : ℚ :=
  mkRat ((if neg then -1 else 1) * ((n : Int) * 10 ^ k + f)) (10 ^ k)

/-- Parse an unsigned locale-independent decimal value. -/
def parseUnsignedDec (neg : Bool) (cs : List Char) : Option ℚ :=
  match splitFirst dotChar cs with
  | some (ip, fp) =>
    match parseNat ip, parseNat fp with
    | some n, some f => some (decValue neg n f fp.length)
    | _, _ => none
  | none => (parseNat cs).map (fun n => decValue neg n 0 0)

/-- Parse an optionally negated decimal value. -/
def parseDecimal (cs : List Char) : Option ℚ :=
  match cs with
  | [] => none
  | c :: rest =>
    if c = minusChar then parseUnsignedDec true rest
    else parseUnsignedDec false cs

/-- Modelled from the spec: structural violations of the output format. -/
inductive MalformedOutputError where
  | noHeader
  | columnMismatch
  | badValue
  | truncated
  | notSingleRow
deriving DecidableEq

/-- Modelled from the spec: one chain's parsed output — metadata mapping,
ordered structured parameter names, the numeric draw matrix (a single row
for point-estimate modes, flagged by `isPoint`), and per-chain scalar
diagnostics. -/
structure ParsedChainRecord where
  meta : List (List Char × List Char)
  params : List ParamName
  draws : List (List ℚ)
  isPoint : Bool
  diagnostics : List (List Char × ℚ)
deriving DecidableEq

/-- Parse the cells of one data row. -/
def parseCells : List (List Char) → Except MalformedOutputError (List ℚ)
  | [] => .ok []
  | c :: rest =>
    match parseDecimal c with
    | some q =>
      match parseCells rest with
      | .ok qs => .ok (q :: qs)
      | .error e => .error e
    | none => .error .badValue

/-- Parse one data row, demanding exactly `ncols` comma-separated
numeric cells. -/
def parseRow (ncols : Nat) (row : List Char) : Except MalformedOutputError (List ℚ) :=
  let cells := SetupPy.splitOnChar commaChar row
  if cells.length = ncols then parseCells cells else .error .columnMismatch

/-- Parse all data rows against the header column count. -/
def parseRows (ncols : Nat) : List (List Char) → Except MalformedOutputError (List (List ℚ))
  | [] => .ok []
  | r :: rs =>
    match parseRow ncols r with
    | .ok v =>
      match parseRows ncols rs with
      | .ok vs => .ok (v :: vs)
      | .error e => .error e
    | .error e => .error e

/-- A line skipped by the parser: blank, or comment-marked. -/
def isCommentOrBlank (l : List Char) : Bool :=
  l.isEmpty || l.head? = some hashChar

/-- The numeric-valued metadata entries, kept as per-chain scalar
diagnostics. -/
def diagOf (meta : List (List Char × List Char)) : List (List Char × ℚ) :=
  meta.filterMap (fun kv => (parseDecimal kv.2).map (fun q => (kv.1, q)))

/-- Modelled from the spec: `OutputParser.parse` on the contents of a
chain's output file.  `pointMode` selects the single-row point-estimate
reading; `expected` is the requested draw count used to detect truncated
files.  Comment and blank lines are tolerated anywhere; the first other
line is the comma-separated column header; every data row must match the
header column count and hold numeric values. -/
def parse (pointMode : Bool) (expected : Option Nat) (content : List Char) :
    Except MalformedOutputError ParsedChainRecord :=
  let lines := SetupPy.splitOnChar SetupPy.nl content
  let meta := (lines.filter (fun l => l.head? = some hashChar)).filterMap
      (fun l => splitFirst eqChar (l.drop 1))
  match lines.filter (fun l => !isCommentOrBlank l) with
  | [] => .error .noHeader
  | header :: rows =>
    let cols := SetupPy.splitOnChar commaChar header
    match parseRows cols.length rows with
    | .error e => .error e
    | .ok draws =>
      if pointMode then
        if draws.length = 1 then
          .ok ⟨meta, cols.map parseParamName, draws, true, diagOf meta⟩
        else .error .notSingleRow
      else
        match expected with
        | some e =>
          if draws.length = e then
            .ok ⟨meta, cols.map parseParamName, draws, false, diagOf meta⟩
          else .error .truncated
        | none => .ok ⟨meta, cols.map parseParamName, draws, false, diagOf meta⟩

/-- Modelled from the spec: the terminal outcome of one chain.  The
output path is modelled by the output contents, the filesystem being
abstracted away. -/
inductive ChainOutcome where
  | completed (output : List Char)
  | failed (exitCode : Int) (stderrTail : List Char)
  | timedOut
  | launchError (reason : List Char)
deriving DecidableEq

/-- Modelled from the spec: why a chain contributed no usable record. -/
inductive FailReason where
  | nonzeroExit (exitCode : Int) (stderrTail : List Char)
  | timedOut
  | launchFailed (reason : List Char)
  | malformedOutput (e : MalformedOutputError)
deriving DecidableEq

/-- Modelled from the spec: what one supervised subprocess did — the
environment input of the orchestrator. -/
inductive ProcResult where
  | exited (exitCode : Int) (stderrTail : List Char) (output : List Char)
  | timedOut
  | launchFailed (reason : List Char)

/-- Whether the run mode produces a single point-estimate row. -/
def isPointMode : Method → Bool
  | .optimize _ => true
  | .variational _ _ => true
  | _ => false

/-- The requested number of draw rows, when the mode fixes one. -/
def expectedDraws : Method → Option Nat
  | .sample n _ _ _ _ => some n
  | _ => none

/-- What the orchestrator records for one chain: its terminal outcome
after parsing, its parsed record when usable, and its failure reason
otherwise.  A zero-exit chain whose output fails to parse is demoted to
failed, per the error-handling design. -/
structure ChainStep where
  outcome : ChainOutcome
  record : Option ParsedChainRecord
  failure : Option FailReason

/-- Supervision and ingestion of a single chain. -/
def chainStep (cfg : RunConfig) (pr : ProcResult) : ChainStep :=
  match pr with
  | .exited code tail out =>
    if code = 0 then
      match parse (isPointMode cfg.method) (expectedDraws cfg.method) out with
      | .ok rec => ⟨.completed out, some rec, none⟩
      | .error e => ⟨.failed 0 tail, none, some (.malformedOutput e)⟩
    else ⟨.failed code tail, none, some (.nonzeroExit code tail)⟩
  | .timedOut => ⟨.timedOut, none, some .timedOut⟩
  | .launchFailed r => ⟨.launchError r, none, some (.launchFailed r)⟩

/-- Whole-run errors that abort the orchestration call. -/
inductive OrchError where
  | allChainsFailed
  | inconsistentChains
deriving DecidableEq

/-- The chain ids of a run: `1..n`. -/
def chainIdList (n : Nat) : List Nat := List.range' 1 n

/-- What `RunOrchestrator.run` hands on: all terminal outcomes in chain
id order, the parsed records of the succeeded chains keyed by chain id,
and the failed chain ids with their reasons. -/
structure RunOutput where
  outcomes : List ChainOutcome
  records : List (Nat × ParsedChainRecord)
  failures : List (Nat × FailReason)
deriving DecidableEq

/-- Modelled from the spec: `RunOrchestrator.run` — one ChainStep per
requested chain id, records keyed by chain id (id order, independent of
completion order), failing with `AllChainsFailedError` when no chain
reaches `Completed`.  Process behaviour is the explicit `env` input; the
compiled model only feeds argument construction, abstracted here. -/
def run (cfg : RunConfig) (n : Nat) (env : Nat → ProcResult) :
    Except OrchError RunOutput :=
  let steps := (chainIdList n).map (fun i => (i, chainStep cfg (env i)))
  let records := steps.filterMap (fun p => p.2.record.map (fun r => (p.1, r)))
  if records.isEmpty then .error .allChainsFailed
  else
    .ok ⟨steps.map (fun p => p.2.outcome), records,
         steps.filterMap (fun p => p.2.failure.map (fun f => (p.1, f)))⟩

/-- Row indices at which each contributing chain's draws begin in the
combined matrix. -/
def chainStarts : List Nat → List Nat
  | [] => []
  | n :: ns => 0 :: (chainStarts ns).map (fun s => s + n)

/-- Modelled from the spec: the consolidated fit — shared parameter
names, combined draw matrix with recorded chain boundaries, per-chain
diagnostics verbatim, and the failed chains with their reasons. -/
structure FitResult where
  params : List ParamName
  isPoint : Bool
  draws : List (List ℚ)
  chainIds : List Nat
  starts : List Nat
  diagnostics : List (Nat × List (List Char × ℚ))
  failures : List (Nat × FailReason)
deriving DecidableEq

/-- Assembly-time errors. -/
inductive AssembleError where
  | inconsistentChains
  | noRecords
deriving DecidableEq

/-- Modelled from the spec: `ResultAssembler.assemble` — demands all
contributing records agree on parameter identity, order, dimensionality
and shape kind, then concatenates the draw matrices chain by chain with
the chain boundaries recorded. -/
def assemble (records : List (Nat × ParsedChainRecord))
    (failures : List (Nat × FailReason)) : Except AssembleError FitResult :=
  match records with
  | [] => .error .noRecords
  | (_, r0) :: rest =>
    if rest.all (fun p => decide (p.2.params = r0.params) &&
        decide (p.2.isPoint = r0.isPoint)) then
      .ok { params := r0.params
            isPoint := r0.isPoint
            draws := (records.map (fun p => p.2.draws)).flatten
            chainIds := records.map (fun p => p.1)
            starts := chainStarts (records.map (fun p => p.2.draws.length))
            diagnostics := records.map (fun p => (p.1, p.2.diagnostics))
            failures := failures }
    else .error .inconsistentChains

/-- Modelled from the spec: the whole orchestration call — run the
chains, then assemble the succeeded records into a FitResult; fails with
`AllChainsFailedError` when no chain is usable and with
`InconsistentChainsError` when the records disagree structurally. -/
def fitRun (cfg : RunConfig) (n : Nat) (env : Nat → ProcResult) :
    Except OrchError (List ChainOutcome × FitResult) :=
  match run cfg n env with
  | .error e => .error e
  | .ok ro =>
    match assemble ro.records ro.failures with
    | .ok fr => .ok (ro.outcomes, fr)
    | .error _ => .error .inconsistentChains

end Orchestration

/-!  Theorems.  First the packaging script, then the orchestration
subsystem. -/

namespace SetupPy

theorem capture_complete (t : List Char) (suf : List Char)
    (hq : quote ∉ t) (hn : nl ∉ t) :
    capture (t ++ quote :: suf) = some t := by
  induction t with
  | nil => simp [capture]
  | cons c rest ih =>
    have hc : c ≠ quote := fun h => hq (h ▸ List.mem_cons_self c rest)
    have hcn : c ≠ nl := fun h => hn (h ▸ List.mem_cons_self c rest)
    have hq' : quote ∉ rest := fun h => hq (List.mem_cons_of_mem c h)
    have hn' : nl ∉ rest := fun h => hn (List.mem_cons_of_mem c h)
    simp only [List.cons_append, capture, if_neg hc, if_neg hcn, List.append_eq,
      ih hq' hn', Option.map_some']

theorem capture_sound (s : List Char) :
    ∀ t, capture s = some t →
      (∃ suf, s = t ++ quote :: suf) ∧ quote ∉ t ∧ nl ∉ t := by
  induction s with
  | nil => intro t h; simp [capture] at h
  | cons c rest ih =>
    intro t h
    by_cases hc : c = quote
    · subst hc
      have ht : t = [] := by simpa [capture] using h.symm
      subst ht
      exact ⟨⟨rest, rfl⟩, by simp, by simp⟩
    · by_cases hcn : c = nl
      · subst hcn
        simp [capture, if_neg hc] at h
      · simp only [capture, if_neg hc, if_neg hcn, Option.map_eq_some'] at h
        obtain ⟨t', ht', rfl⟩ := h
        obtain ⟨⟨suf, hsuf⟩, hq', hn'⟩ := ih t' ht'
        refine ⟨⟨suf, by simp [hsuf]⟩, ?_, ?_⟩
        · intro hmem
          rcases List.mem_cons.mp hmem with h1 | h1
          · exact hc h1.symm
          · exact hq' h1
        · intro hmem
          rcases List.mem_cons.mp hmem with h1 | h1
          · exact hcn h1.symm
          · exact hn' h1

theorem tryHere_complete (s t : List Char) (h : MatchAt s 0 t) :
    tryHere s = some t := by
  obtain ⟨⟨suf, hsuf⟩, hq, hn⟩ := h
  rw [List.drop_zero, List.append_assoc] at hsuf
  subst hsuf
  have hpre : versionPat.isPrefixOf (versionPat ++ (t ++ quote :: suf)) = true :=
    List.isPrefixOf_iff_prefix.mpr (List.prefix_append _ _)
  rw [tryHere, if_pos hpre, List.drop_left]
  exact capture_complete t suf hq hn

theorem tryHere_sound (s t : List Char) (h : tryHere s = some t) :
    MatchAt s 0 t := by
  unfold tryHere at h
  by_cases hpre : versionPat.isPrefixOf s
  · rw [if_pos hpre] at h
    obtain ⟨r, hr⟩ := List.isPrefixOf_iff_prefix.mp hpre
    subst hr
    rw [List.drop_left] at h
    obtain ⟨⟨suf, hsuf⟩, hq, hn⟩ := capture_sound r t h
    exact ⟨⟨suf, by rw [List.drop_zero, hsuf, List.append_assoc]⟩, hq, hn⟩
  · rw [if_neg hpre] at h
    exact absurd h (by simp)

theorem matchAt_succ (c : Char) (s : List Char) (i : Nat) (t : List Char) :
    MatchAt (c :: s) (i + 1) t ↔ MatchAt s i t := by
  unfold MatchAt
  rw [List.drop_succ_cons]

theorem vsearch_complete (s : List Char) :
    ∀ i t, MatchAt s i t → (∀ j u, j < i → ¬ MatchAt s j u) →
      vsearch s = some t := by
  induction s with
  | nil =>
    intro i t h _
    obtain ⟨⟨suf, hsuf⟩, -, -⟩ := h
    rw [List.drop_nil] at hsuf
    exact absurd hsuf (by simp [versionPat])
  | cons c rest ih =>
    intro i t h hmin
    match i with
    | 0 =>
      have := tryHere_complete (c :: rest) t h
      simp only [vsearch, this]
    | i' + 1 =>
      have hnone : tryHere (c :: rest) = none := by
        cases htry : tryHere (c :: rest) with
        | none => rfl
        | some u =>
          exact absurd (tryHere_sound _ u htry)
            (hmin 0 u (Nat.succ_pos i'))
      have hrest : MatchAt rest i' t := (matchAt_succ c rest i' t).mp h
      have hmin' : ∀ j u, j < i' → ¬ MatchAt rest j u := by
        intro j u hj hm
        exact hmin (j + 1) u (Nat.succ_lt_succ hj)
          ((matchAt_succ c rest j u).mpr hm)
      simp only [vsearch, hnone]
      exact ih i' t hrest hmin'

theorem vsearch_none (s : List Char) (h : ∀ i t, ¬ MatchAt s i t) :
    vsearch s = none := by
  induction s with
  | nil => rfl
  | cons c rest ih =>
    have hnone : tryHere (c :: rest) = none := by
      cases htry : tryHere (c :: rest) with
      | none => rfl
      | some u => exact absurd (tryHere_sound _ u htry) (h 0 u)
    simp only [vsearch, hnone]
    exact ih (fun i t hm => h (i + 1) t ((matchAt_succ c rest i t).mpr hm))

/-- C8: when the contents of `cmdstanpy/_version.py` hold an occurrence
of the pattern `__version__ = ` followed by quoted text, `get_version`
returns the text captured between the quotes of the first (leftmost)
occurrence, the capture stopping at the first closing quote; when no
occurrence exists, the `.group(1)` call raises instead of returning a
string, modelled by `none`. -/
theorem get_version_spec (s : List Char) :
    (∀ i t, MatchAt s i t → (∀ j u, MatchAt s j u → i ≤ j) →
      get_version s = some t) ∧
    ((∀ i t, ¬ MatchAt s i t) → get_version s = none) := by
  constructor
  · intro i t h hmin
    exact vsearch_complete s i t h
      (fun j u hj hm => absurd (hmin j u hm) (Nat.not_le_of_lt hj))
  · intro h
    exact vsearch_none s h

/-- C8 witness: a concrete version file whose first occurrence captures
`0.1.0`. -/
theorem get_version_spec_witness :
    get_version (versionPat ++ ("0.1.0").data ++ [quote]) =
      some (("0.1.0").data) := by
  refine (get_version_spec _).1 0 _ ⟨⟨[], ?_⟩, by decide, by decide⟩
    (fun j u _ => Nat.zero_le j)
  simp [List.append_assoc]

/-- C9 counterexample: the classifiers list passed to `setuptools.setup`
does not have 9 elements. -/
theorem classifiers_not_nine : ¬ (classifiers.length = 9) := by decide

/-- C9 (amended): the classifiers list equals the 8 lines of the
`_classifiers` string after stripping and splitting on newline, in
order, and contains no empty string. -/
theorem classifiers_spec :
    classifiers =
      [("Programming Language :: Python :: 3").data,
       ("License :: OSI Approved :: Apache Software License").data,
       ("Operating System :: OS Independent").data,
       ("Development Status :: 4 - Beta").data,
       ("Intended Audience :: Science/Research").data,
       ("Natural Language :: English").data,
       ("Programming Language :: Python").data,
       ("Topic :: Scientific/Engineering :: Information Analysis").data] ∧
    ([] : List Char) ∉ classifiers := by decide

/-- C10: the metadata assembled by `setup.py` is deterministic in its
file inputs — identical contents of `README.md` and
`cmdstanpy/_version.py` yield the same readme string (returned
unchanged), the same version string, and identical arguments to
`setuptools.setup`. -/
theorem setup_deterministic (r₁ r₂ v₁ v₂ : List Char)
    (hr : r₁ = r₂) (hv : v₁ = v₂) :
    readme_contents r₁ = r₁ ∧
    readme_contents r₁ = readme_contents r₂ ∧
    get_version v₁ = get_version v₂ ∧
    setupArgs r₁ v₁ = setupArgs r₂ v₂ := by
  subst hr; subst hv
  exact ⟨rfl, rfl, rfl, rfl⟩

/-- C10 witness: the determinism theorem applied at concrete file
contents. -/
theorem setup_deterministic_witness :
    readme_contents (("hello").data) = ("hello").data ∧
    readme_contents (("hello").data) = readme_contents (("hello").data) ∧
    get_version (("nothing here").data) = get_version (("nothing here").data) ∧
    setupArgs (("hello").data) (("nothing here").data) =
      setupArgs (("hello").data) (("nothing here").data) :=
  setup_deterministic _ _ _ _ rfl rfl

end SetupPy

namespace Orchestration

/-- C4: `OutputParser.parse` on a file whose header names 3 columns but
whose data row has 2 values fails with `MalformedOutputError`; on a
well-formed file with header `lp__,theta.1,theta.2` and 2 data rows it
returns the parameter list `[lp__, theta.1, theta.2]` and the 2-by-3
draw matrix of the file's literal numeric values. -/
theorem outputParser_cases :
    parse false none (("lp__,theta.1,theta.2\n1.5,2.0").data) =
      .error .columnMismatch ∧
    (parse false none
        (("lp__,theta.1,theta.2\n-1.5,0.25,2\n-2,0.5,3.25").data)).map
        (fun rec => (rec.params.map flatName, rec.draws)) =
      .ok ([("lp__").data, ("theta.1").data, ("theta.2").data],
           [[mkRat (-3) 2, mkRat 1 4, mkRat 2 1],
            [mkRat (-2) 1, mkRat 1 2, mkRat 13 4]]) := by
  decide

theorem charToDigit_digitToChar : ∀ d, d < 10 →
    charToDigit (digitToChar d) = some d := by decide

theorem parseNatGo_append (xs ys : List Char) : ∀ acc,
    parseNatGo acc (xs ++ ys) =
      (parseNatGo acc xs).bind (fun a => parseNatGo a ys) := by
  induction xs with
  | nil => intro acc; rfl
  | cons c rest ih =>
    intro acc
    simp only [List.cons_append, parseNatGo]
    cases charToDigit c with
    | none => rfl
    | some d => exact ih (acc * 10 + d)

theorem natToStrGo_spec : ∀ fuel n acc, n ≤ fuel →
    parseNatGo acc (natToStrGo fuel n) =
      some (acc * 10 ^ (natToStrGo fuel n).length + n) := by
  intro fuel
  induction fuel with
  | zero =>
    intro n acc hn
    interval_cases n
    simp [natToStrGo, parseNatGo]
  | succ fuel ih =>
    intro n acc hn
    by_cases h0 : n = 0
    · subst h0
      simp [natToStrGo, parseNatGo]
    · have hdiv : n / 10 ≤ fuel := by omega
      have hmod : n % 10 < 10 := Nat.mod_lt n (by omega)
      simp only [natToStrGo, if_neg h0, parseNatGo_append, ih (n / 10) acc hdiv,
        Option.some_bind, parseNatGo, charToDigit_digitToChar (n % 10) hmod,
        List.length_append, List.length_cons, List.length_nil]
      have hx : n / 10 * 10 + n % 10 = n := by omega
      simp only [Nat.pow_succ, Nat.mul_assoc, Nat.add_mul, Nat.add_assoc, hx,
        Nat.zero_add, Nat.pow_zero]

theorem natToStr_ne_nil (n : Nat) : natToStr n ≠ [] := by
  match n with
  | 0 => simp [natToStr]
  | m + 1 =>
    simp [natToStr, natToStrGo]

theorem parseNat_natToStr (n : Nat) : parseNat (natToStr n) = some n := by
  match n with
  | 0 => rfl
  | m + 1 =>
    have hne := natToStr_ne_nil (m + 1)
    have hgo : parseNat (natToStr (m + 1)) = parseNatGo 0 (natToStr (m + 1)) := by
      cases h : natToStr (m + 1) with
      | nil => exact absurd h hne
      | cons c tl => rfl
    rw [hgo]
    show parseNatGo 0 (natToStrGo (m + 1) (m + 1)) = some (m + 1)
    rw [natToStrGo_spec (m + 1) (m + 1) 0 (Nat.le_refl _)]
    simp

end Orchestration

namespace Orchestration

theorem digitToChar_ne_slash (d : Nat) : digitToChar d ≠ Char.ofNat 47 := by
  unfold digitToChar
  split_ifs <;> decide

theorem natToStrGo_no_slash : ∀ fuel n, Char.ofNat 47 ∉ natToStrGo fuel n := by
  intro fuel
  induction fuel with
  | zero => intro n; simp [natToStrGo]
  | succ fuel ih =>
    intro n
    by_cases h0 : n = 0
    · simp [natToStrGo, h0]
    · simp only [natToStrGo, if_neg h0, List.mem_append, List.mem_singleton]
      rintro (h | h)
      · exact ih (n / 10) h
      · exact digitToChar_ne_slash (n % 10) h.symm

theorem natToStr_no_slash (n : Nat) : Char.ofNat 47 ∉ natToStr n := by
  by_cases h0 : n = 0
  · simp [natToStr, h0]
  · simp only [natToStr, if_neg h0]
    exact natToStrGo_no_slash n n

theorem splitFirst_sep (sep : Char) (k v : List Char) (hk : sep ∉ k) :
    splitFirst sep (k ++ sep :: v) = some (k, v) := by
  induction k with
  | nil => simp [splitFirst]
  | cons c rest ih =>
    have hc : c ≠ sep := fun h => hk (h ▸ List.mem_cons_self c rest)
    have hrest : sep ∉ rest := fun h => hk (List.mem_cons_of_mem c h)
    simp [splitFirst, if_neg hc, ih hrest]

theorem expectKey_kvToken (key v : List Char) (hk : eqChar ∉ key) :
    expectKey key (kvToken key v) = some v := by
  simp [expectKey, kvToken, splitFirst_sep eqChar key v hk]

theorem expectKey_kvToken_ne (key k v : List Char) (hk : eqChar ∉ k)
    (hne : k ≠ key) : expectKey key (kvToken k v) = none := by
  simp [expectKey, kvToken, splitFirst_sep eqChar k v hk, hne]

theorem parseRat_ratToStr (q : ℚ) (hq : 0 < q.num) :
    parseRat (ratToStr q) = some q := by
  unfold parseRat ratToStr
  rw [splitFirst_sep (Char.ofNat 47) _ _ (natToStr_no_slash q.num.toNat)]
  simp only [parseNat_natToStr]
  have hcast : (q.num.toNat : Int) = q.num := Int.toNat_of_nonneg (le_of_lt hq)
  simp [hcast, Rat.mkRat_self]

theorem parseExtras_map (extras : List (List Char × List Char))
    (h : ∀ kv ∈ extras, eqChar ∉ kv.1) :
    parseExtras (extras.map (fun kv => kvToken kv.1 kv.2)) = some extras := by
  induction extras with
  | nil => rfl
  | cons kv rest ih =>
    have hk : eqChar ∉ kv.1 := h kv (List.mem_cons_self kv rest)
    have hrest : ∀ x ∈ rest, eqChar ∉ x.1 :=
      fun x hx => h x (List.mem_cons_of_mem kv hx)
    have hsplit : splitFirst eqChar (kvToken kv.1 kv.2) = some (kv.1, kv.2) := by
      simpa [kvToken] using splitFirst_sep eqChar kv.1 kv.2 hk
    simp [parseExtras, hsplit, ih hrest]

theorem parseBool01_encode (a : Bool) :
    parseBool01 (if a then [Char.ofNat 49] else [Char.ofNat 48]) = some a := by
  cases a <;> decide

end Orchestration

namespace Orchestration

theorem parseMethod_methodArgs (m : Method) (t : List Char) (r : List (List Char))
    (ht : expectKey (("step_size").data) t = none)
    (hstep : ∀ n w th a q, m = .sample n w th a (some q) → 0 < q.num) :
    parseMethod (methodArgs m ++ t :: r) = some (m, t :: r) := by
  cases m with
  | sample n w th a ss =>
    have e1 := expectKey_kvToken (("num_samples").data) (natToStr n) (by decide)
    have e2 := expectKey_kvToken (("num_warmup").data) (natToStr w) (by decide)
    have e3 := expectKey_kvToken (("thin").data) (natToStr th) (by decide)
    have e4 := expectKey_kvToken (("adapt").data)
      (if a then [Char.ofNat 49] else [Char.ofNat 48]) (by decide)
    cases ss with
    | none =>
      simp [methodArgs, parseMethod, e1, e2, e3, e4, parseNat_natToStr,
        parseBool01_encode, ht]
    | some q =>
      have hq : 0 < q.num := hstep n w th a q rfl
      have e5 := expectKey_kvToken (("step_size").data) (ratToStr q) (by decide)
      simp [methodArgs, parseMethod, e1, e2, e3, e4, e5, parseNat_natToStr,
        parseBool01_encode, parseRat_ratToStr q hq]
  | optimize it =>
    have hd : ¬ ((("optimize").data) = (("sample").data)) := by decide
    have e1 := expectKey_kvToken (("iter").data) (natToStr it) (by decide)
    simp [methodArgs, parseMethod, hd, e1, parseNat_natToStr]
  | variational it gs =>
    have hd : ¬ ((("variational").data) = (("sample").data)) := by decide
    have hd2 : ¬ ((("variational").data) = (("optimize").data)) := by decide
    have e1 := expectKey_kvToken (("iter").data) (natToStr it) (by decide)
    have e2 := expectKey_kvToken (("grad_samples").data) (natToStr gs) (by decide)
    simp [methodArgs, parseMethod, hd, hd2, e1, e2, parseNat_natToStr]
  | generateQuantities fp =>
    have hd : ¬ ((("generate_quantities").data) = (("sample").data)) := by decide
    have hd2 : ¬ ((("generate_quantities").data) = (("optimize").data)) := by decide
    have hd3 : ¬ ((("generate_quantities").data) = (("variational").data)) := by decide
    have e1 := expectKey_kvToken (("fitted_params").data) fp (by decide)
    simp [methodArgs, parseMethod, hd, hd2, hd3, e1]
  | laplace mf =>
    have hd : ¬ ((("laplace").data) = (("sample").data)) := by decide
    have hd2 : ¬ ((("laplace").data) = (("optimize").data)) := by decide
    have hd3 : ¬ ((("laplace").data) = (("variational").data)) := by decide
    have hd4 : ¬ ((("laplace").data) = (("generate_quantities").data)) := by decide
    have e1 := expectKey_kvToken (("mode").data) mf (by decide)
    simp [methodArgs, parseMethod, hd, hd2, hd3, hd4, e1]

end Orchestration

namespace Orchestration

theorem validate_facts (m : Method) (seed : Nat) (out : List Char)
    (ini : Option (List Char)) (extras : List (List Char × List Char))
    (hv : validate ⟨m, seed, out, ini, extras⟩ = .ok ()) :
    (∀ kv ∈ extras, kv.1 ∉ managedKeys m ∧ eqChar ∉ kv.1 ∧ kv.1 ≠ []) ∧
    (∀ n w th a q, m = .sample n w th a (some q) → 0 < q.num) := by
  have hex : validateExtras ⟨m, seed, out, ini, extras⟩ = .ok () ∧
      (∀ n w th a q, m = .sample n w th a (some q) → 0 < q.num) := by
    cases m with
    | sample n w th a ss =>
      simp only [validate] at hv
      by_cases h1 : a ∧ ss.isSome
      · rw [if_pos h1] at hv; exact absurd hv (by simp)
      · rw [if_neg h1] at hv
        cases ss with
        | none =>
          refine ⟨by simpa using hv, ?_⟩
          intro n' w' th' a' q' hEq
          injection hEq with e1 e2 e3 e4 e5
          cases e5
        | some q =>
          by_cases h2 : q.num ≤ 0
          · rw [if_pos (by simpa using h2)] at hv
            exact absurd hv (by simp)
          · rw [if_neg (by simpa using h2)] at hv
            refine ⟨hv, ?_⟩
            intro n' w' th' a' q' hEq
            injection hEq with e1 e2 e3 e4 e5
            injection e5 with e6
            rw [← e6]
            exact lt_of_not_le h2
    | optimize it =>
      exact ⟨by simpa [validate] using hv, fun _ _ _ _ _ h => by cases h⟩
    | variational it gs =>
      exact ⟨by simpa [validate] using hv, fun _ _ _ _ _ h => by cases h⟩
    | generateQuantities fp =>
      exact ⟨by simpa [validate] using hv, fun _ _ _ _ _ h => by cases h⟩
    | laplace mf =>
      exact ⟨by simpa [validate] using hv, fun _ _ _ _ _ h => by cases h⟩
  refine ⟨?_, hex.2⟩
  have h := hex.1
  unfold validateExtras at h
  by_cases hc : extras.all (fun kv =>
      decide (kv.1 ∉ managedKeys m) && decide (eqChar ∉ kv.1)
        && decide (kv.1 ≠ [])) = true
  · intro kv hkv
    have := List.all_eq_true.mp hc kv hkv
    simp only [Bool.and_eq_true, decide_eq_true_eq] at this
    exact ⟨this.1.1, this.1.2, this.2⟩
  · rw [if_neg hc] at h
    exact absurd h (by simp)

end Orchestration

namespace Orchestration

/-- C7: for a valid run configuration, `ArgumentBuilder.build` is a pure
deterministic function of model, configuration and chain id, and its
ordered argument list parses back to the executable path, a
configuration equal on every field the builder manages, and the chain
id (round-trip). -/
theorem argumentBuilder_spec (model : CompiledModel) (cfg : RunConfig)
    (chainId : Nat) (hv : validate cfg = .ok ()) :
    (∀ model2 cfg2 id2, model2 = model → cfg2 = cfg → id2 = chainId →
        build model2 cfg2 id2 = build model cfg chainId) ∧
    parseArgs (build model cfg chainId) = some (model.exePath, cfg, chainId) := by
  obtain ⟨m, seed, out, ini, extras⟩ := cfg
  obtain ⟨hall, hstep⟩ := validate_facts m seed out ini extras hv
  refine ⟨fun m2 c2 i2 h1 h2 h3 => by rw [h1, h2, h3], ?_⟩
  have ht : expectKey (("step_size").data)
      (kvToken (("id").data) (natToStr chainId)) = none :=
    expectKey_kvToken_ne _ _ _ (by decide) (by decide)
  have a1 : (expectKey (("id").data)
      (kvToken (("id").data) (natToStr chainId))).bind parseNat = some chainId := by
    rw [expectKey_kvToken _ _ (by decide)]
    simpa using parseNat_natToStr chainId
  have a2 : (expectKey (("random_seed").data)
      (kvToken (("random_seed").data) (natToStr seed))).bind parseNat =
        some seed := by
    rw [expectKey_kvToken _ _ (by decide)]
    simpa using parseNat_natToStr seed
  have a3 : expectKey (("output_file").data)
      (kvToken (("output_file").data) out) = some out :=
    expectKey_kvToken _ _ (by decide)
  have hkeys : ∀ kv ∈ extras, eqChar ∉ kv.1 := fun kv hkv => (hall kv hkv).2.1
  have hpe := parseExtras_map extras hkeys
  cases ini with
  | some p =>
    have b1 : expectKey (("init").data) (kvToken (("init").data) p) = some p :=
      expectKey_kvToken _ _ (by decide)
    have hpm := parseMethod_methodArgs m
      (kvToken (("id").data) (natToStr chainId))
      (kvToken (("random_seed").data) (natToStr seed) ::
        kvToken (("output_file").data) out ::
        (kvToken (("init").data) p :: extras.map (fun kv => kvToken kv.1 kv.2)))
      ht hstep
    simp only [build, List.append_assoc, List.cons_append, List.nil_append,
      List.map_cons, List.map_nil, parseArgs, hpm, a1, a2, a3, b1, hpe]
  | none =>
    have hinitmem : (("init").data) ∈ managedKeys m := by
      unfold managedKeys
      exact List.mem_append_right _ (by decide)
    have hpm := parseMethod_methodArgs m
      (kvToken (("id").data) (natToStr chainId))
      (kvToken (("random_seed").data) (natToStr seed) ::
        kvToken (("output_file").data) out ::
        extras.map (fun kv => kvToken kv.1 kv.2))
      ht hstep
    cases hext : extras with
    | nil =>
      subst hext
      simp only [List.map_nil] at hpm hpe
      simp only [build, List.append_assoc, List.cons_append, List.nil_append,
        List.map_nil, parseArgs, hpm, a1, a2, a3, hpe]
    | cons kv rest =>
      have hkv : kv ∈ extras := hext ▸ List.mem_cons_self kv rest
      have b2 : expectKey (("init").data) (kvToken kv.1 kv.2) = none :=
        expectKey_kvToken_ne _ _ _ ((hall kv hkv).2.1)
          (fun h => (hall kv hkv).1 (h ▸ hinitmem))
      subst hext
      simp only [List.map_cons] at hpm hpe
      simp only [build, List.append_assoc, List.cons_append, List.nil_append,
        List.map_cons, parseArgs, hpm, a1, a2, a3, b2, hpe]

end Orchestration

namespace Orchestration

theorem parseCells_length (cs : List (List Char)) : ∀ v,
    parseCells cs = .ok v → v.length = cs.length := by
  induction cs with
  | nil => intro v h; cases h; rfl
  | cons c rest ih =>
    intro v h
    unfold parseCells at h
    cases hd : parseDecimal c with
    | none => rw [hd] at h; cases h
    | some q =>
      rw [hd] at h
      cases hr : parseCells rest with
      | error e => rw [hr] at h; cases h
      | ok qs =>
        rw [hr] at h
        cases h
        simp [ih qs hr]

theorem parseRow_length (ncols : Nat) (row : List Char) (v : List ℚ)
    (h : parseRow ncols row = .ok v) : v.length = ncols := by
  unfold parseRow at h
  by_cases hc : (SetupPy.splitOnChar commaChar row).length = ncols
  · rw [if_pos hc] at h
    rw [parseCells_length _ v h, hc]
  · rw [if_neg hc] at h
    cases h

theorem parseRows_mem (ncols : Nat) (rows : List (List Char)) : ∀ draws,
    parseRows ncols rows = .ok draws → ∀ v ∈ draws, v.length = ncols := by
  induction rows with
  | nil => intro draws h; cases h; intro v hv; cases hv
  | cons r rs ih =>
    intro draws h
    unfold parseRows at h
    cases hr : parseRow ncols r with
    | error e => rw [hr] at h; cases h
    | ok v0 =>
      rw [hr] at h
      cases hrs : parseRows ncols rs with
      | error e => rw [hrs] at h; cases h
      | ok vs =>
        rw [hrs] at h
        cases h
        intro v hv
        rcases List.mem_cons.mp hv with h1 | h1
        · rw [h1]; exact parseRow_length ncols r v0 hr
        · exact ih vs hrs v h1

theorem parse_invariant (pm : Bool) (exp : Option Nat) (content : List Char)
    (rec : ParsedChainRecord) (h : parse pm exp content = .ok rec) :
    ∀ row ∈ rec.draws, row.length = rec.params.length := by
  unfold parse at h
  simp only [] at h
  cases hfil : (SetupPy.splitOnChar SetupPy.nl content).filter
      (fun l => !isCommentOrBlank l) with
  | nil => rw [hfil] at h; cases h
  | cons header rows =>
    rw [hfil] at h
    simp only [] at h
    cases hpr : parseRows
        (SetupPy.splitOnChar commaChar header).length rows with
    | error e => rw [hpr] at h; cases h
    | ok draws =>
      rw [hpr] at h
      simp only [] at h
      have hmem := parseRows_mem _ rows draws hpr
      by_cases hpm : pm
      · rw [if_pos hpm] at h
        by_cases h1 : draws.length = 1
        · rw [if_pos h1] at h
          cases h
          intro row hrow
          simp only [List.length_map]
          exact hmem row hrow
        · rw [if_neg h1] at h; cases h
      · rw [if_neg hpm] at h
        cases exp with
        | some e =>
          simp only [] at h
          by_cases h1 : draws.length = e
          · rw [if_pos h1] at h
            cases h
            intro row hrow
            simp only [List.length_map]
            exact hmem row hrow
          · rw [if_neg h1] at h; cases h
        | none =>
          simp only [] at h
          cases h
          intro row hrow
          simp only [List.length_map]
          exact hmem row hrow

theorem chainStep_record_parse (cfg : RunConfig) (pr : ProcResult)
    (rec : ParsedChainRecord) (h : (chainStep cfg pr).record = some rec) :
    ∃ out, parse (isPointMode cfg.method) (expectedDraws cfg.method) out =
      .ok rec := by
  cases pr with
  | exited code tl out =>
    by_cases hc : code = 0
    · cases hp : parse (isPointMode cfg.method) (expectedDraws cfg.method) out with
      | ok r =>
        refine ⟨out, ?_⟩
        have : (chainStep cfg (.exited code tl out)).record = some r := by
          simp [chainStep, if_pos hc, hp]
        rw [this] at h
        cases h
        exact hp
      | error e =>
        have : (chainStep cfg (.exited code tl out)).record = none := by
          simp [chainStep, if_pos hc, hp]
        rw [this] at h
        cases h
    · have : (chainStep cfg (.exited code tl out)).record = none := by
        simp [chainStep, if_neg hc]
      rw [this] at h
      cases h
  | timedOut => cases h
  | launchFailed r => cases h

theorem assemble_shape (records : List (Nat × ParsedChainRecord))
    (fl : List (Nat × FailReason)) (fr : FitResult)
    (h : assemble records fl = .ok fr)
    (hinv : ∀ x ∈ records, ∀ row ∈ x.2.draws,
      row.length = x.2.params.length) :
    ∀ row ∈ fr.draws, row.length = fr.params.length := by
  cases records with
  | nil => cases h
  | cons hd rest =>
    obtain ⟨i0, r0⟩ := hd
    unfold assemble at h
    simp only [] at h
    by_cases hall : rest.all (fun p => decide (p.2.params = r0.params) &&
        decide (p.2.isPoint = r0.isPoint)) = true
    · rw [if_pos hall] at h
      cases h
      intro row hrow
      simp only [List.mem_flatten, List.mem_map] at hrow
      obtain ⟨l, ⟨p, hp, hl⟩, hrl⟩ := hrow
      have hlen : row.length = p.2.params.length := hinv p hp row (hl ▸ hrl)
      have hpar : p.2.params = r0.params := by
        rcases List.mem_cons.mp hp with h1 | h1
        · rw [h1]
        · have := List.all_eq_true.mp hall p h1
          simp only [Bool.and_eq_true, decide_eq_true_eq] at this
          exact this.1
      rw [hlen, hpar]
    · rw [if_neg hall] at h
      cases h

end Orchestration

namespace Orchestration

theorem run_records_invariant (cfg : RunConfig) (N : Nat)
    (env : Nat → ProcResult) (ro : RunOutput) (h : run cfg N env = .ok ro) :
    ∀ x ∈ ro.records, ∀ row ∈ x.2.draws, row.length = x.2.params.length := by
  unfold run at h
  simp only [] at h
  by_cases hemp : (((chainIdList N).map
      (fun i => (i, chainStep cfg (env i)))).filterMap
      (fun p => p.2.record.map (fun r => (p.1, r)))).isEmpty = true
  · rw [if_pos hemp] at h; cases h
  · rw [if_neg hemp] at h
    cases h
    intro x hx row hrow
    simp only [List.mem_filterMap, List.mem_map] at hx
    obtain ⟨p, ⟨i, hi, hp⟩, hsome⟩ := hx
    rw [← hp] at hsome
    simp only [Option.map_eq_some'] at hsome
    obtain ⟨r, hrec, hxr⟩ := hsome
    obtain ⟨out, hparse⟩ := chainStep_record_parse cfg (env i) r hrec
    have hinv := parse_invariant _ _ _ _ hparse
    rw [← hxr] at hrow ⊢
    exact hinv row hrow

/-- C6: for every record produced by `OutputParser.parse`, the parameter
name list length equals the draw matrix column count, and the invariant
is preserved by the orchestrator handing records on and by
`ResultAssembler.assemble` building the combined matrix. -/
theorem parsedChainRecord_invariant :
    (∀ pm exp content rec, parse pm exp content = .ok rec →
      ∀ row ∈ rec.draws, row.length = rec.params.length) ∧
    (∀ cfg N env ro, run cfg N env = .ok ro →
      ∀ x ∈ ro.records, ∀ row ∈ x.2.draws, row.length = x.2.params.length) ∧
    (∀ records fl fr, assemble records fl = .ok fr →
      (∀ x ∈ records, ∀ row ∈ x.2.draws, row.length = x.2.params.length) →
      ∀ row ∈ fr.draws, row.length = fr.params.length) :=
  ⟨parse_invariant, run_records_invariant, assemble_shape⟩

/-- C6 witness: the invariant evaluated on a concrete two-column file. -/
theorem parsedChainRecord_invariant_witness :
    ∀ row ∈ [[mkRat 1 1, mkRat 2 1]], row.length =
      ([ParamName.mk (("a").data) [], ParamName.mk (("b").data) []]).length :=
  parsedChainRecord_invariant.1 false none (("a,b\n1,2").data)
    ⟨[], [ParamName.mk (("a").data) [], ParamName.mk (("b").data) []],
      [[mkRat 1 1, mkRat 2 1]], false, []⟩ (by decide)

/-- C5: `ResultAssembler.assemble` fails with `InconsistentChainsError`
when two contributing records disagree on the parameter list (identity,
order or dimensionality); on two records with identical parameter lists
and 100 draws each it produces a combined 200-by-P matrix with the
second chain's boundary recorded at row 100. -/
theorem resultAssembler_spec :
    (∀ i1 i2 r1 r2 fl, r1.params ≠ r2.params →
      assemble [(i1, r1), (i2, r2)] fl = .error .inconsistentChains) ∧
    (∀ i1 i2 r1 r2 fl, r1.params = r2.params → r1.isPoint = r2.isPoint →
      r1.draws.length = 100 → r2.draws.length = 100 →
      (∀ row ∈ r1.draws, row.length = r1.params.length) →
      (∀ row ∈ r2.draws, row.length = r2.params.length) →
      ∃ fr, assemble [(i1, r1), (i2, r2)] fl = .ok fr ∧
        fr.params = r1.params ∧ fr.draws.length = 200 ∧
        fr.starts = [0, 100] ∧
        (∀ row ∈ fr.draws, row.length = fr.params.length)) := by
  constructor
  · intro i1 i2 r1 r2 fl hne
    have hf : (r2.params = r1.params) = False :=
      eq_false (fun h => hne h.symm)
    simp [assemble, hf]
  · intro i1 i2 r1 r2 fl hpar hpt h1 h2 hr1 hr2
    have e2p : r2.params = r1.params := hpar.symm
    have e2i : r2.isPoint = r1.isPoint := hpt.symm
    have hall : ([(i2, r2)].all (fun p => decide (p.2.params = r1.params) &&
        decide (p.2.isPoint = r1.isPoint))) = true := by
      simp [e2p, e2i]
    refine ⟨{ params := r1.params, isPoint := r1.isPoint,
              draws := (List.map (fun p => p.2.draws)
                [(i1, r1), (i2, r2)]).flatten,
              chainIds := List.map (fun p => p.1) [(i1, r1), (i2, r2)],
              starts := chainStarts
                (List.map (fun p => p.2.draws.length) [(i1, r1), (i2, r2)]),
              diagnostics := List.map (fun p => (p.1, p.2.diagnostics))
                [(i1, r1), (i2, r2)],
              failures := fl }, ?_, rfl, ?_, ?_, ?_⟩
    · unfold assemble
      simp only []
      rw [if_pos hall]
    · simp [h1, h2]
    · show chainStarts [r1.draws.length, r2.draws.length] = [0, 100]
      rw [h1, h2]
      rfl
    · intro row hrow
      simp only [List.mem_flatten, List.mem_map] at hrow
      obtain ⟨l, ⟨p, hp, hl⟩, hrl⟩ := hrow
      subst hl
      rcases List.mem_cons.mp hp with hc | hc
      · subst hc
        exact hr1 row hrl
      · rcases List.mem_cons.mp hc with hc2 | hc2
        · subst hc2
          have hlen := hr2 row hrl
          rw [hlen]
          exact congrArg List.length e2p
        · cases hc2

/-- C5 witness: the assembler evaluated on concrete pairs of records. -/
theorem resultAssembler_spec_witness :
    assemble [(1, ⟨[], [ParamName.mk (("a").data) []],
        List.replicate 100 [mkRat 0 1], false, []⟩),
      (2, ⟨[], [ParamName.mk (("b").data) []],
        List.replicate 100 [mkRat 0 1], false, []⟩)] [] =
      .error .inconsistentChains ∧
    (∃ fr, assemble [(1, ⟨[], [ParamName.mk (("a").data) []],
        List.replicate 100 [mkRat 0 1], false, []⟩),
      (2, ⟨[], [ParamName.mk (("a").data) []],
        List.replicate 100 [mkRat 0 1], false, []⟩)] [] = .ok fr ∧
      fr.params = [ParamName.mk (("a").data) []] ∧ fr.draws.length = 200 ∧
      fr.starts = [0, 100] ∧
      (∀ row ∈ fr.draws, row.length = fr.params.length)) :=
  ⟨resultAssembler_spec.1 1 2 _ _ [] (by decide),
   resultAssembler_spec.2 1 2 _ _ [] (by decide) (by decide) (by decide)
     (by decide) (by decide) (by decide)⟩

end Orchestration

namespace Orchestration

theorem chainIdList_mem (N i : Nat) :
    i ∈ chainIdList N ↔ 1 ≤ i ∧ i ≤ N := by
  unfold chainIdList
  rw [List.mem_range'_1]
  omega

/-- C1: when all N requested chains (N at least 1) exit with code 0 and
well-formed output, `RunOrchestrator.run` succeeds with exactly N chain
outcomes, all of them `Completed`, and reports zero failures. -/
theorem run_all_success (cfg : RunConfig) (N : Nat) (env : Nat → ProcResult)
    (hN : 1 ≤ N)
    (hall : ∀ i, 1 ≤ i → i ≤ N → ∃ tl out rec, env i = .exited 0 tl out ∧
      parse (isPointMode cfg.method) (expectedDraws cfg.method) out = .ok rec) :
    ∃ ro, run cfg N env = .ok ro ∧ ro.outcomes.length = N ∧
      (∀ o ∈ ro.outcomes, ∃ out, o = .completed out) ∧ ro.failures = [] := by
  have hstep : ∀ i, 1 ≤ i → i ≤ N →
      (∃ out, (chainStep cfg (env i)).outcome = .completed out) ∧
      (chainStep cfg (env i)).record.isSome = true ∧
      (chainStep cfg (env i)).failure = none := by
    intro i hi1 hi2
    obtain ⟨tl, out, rec, he, hp⟩ := hall i hi1 hi2
    rw [he]
    refine ⟨⟨out, ?_⟩, ?_, ?_⟩ <;> simp [chainStep, hp]
  have hmem1 : 1 ∈ chainIdList N := (chainIdList_mem N 1).mpr ⟨le_refl 1, hN⟩
  have h1 := hstep 1 (le_refl 1) hN
  obtain ⟨r1, hr1⟩ := Option.isSome_iff_exists.mp h1.2.1
  have hmemrec : (1, r1) ∈ ((chainIdList N).map
      (fun i => (i, chainStep cfg (env i)))).filterMap
      (fun p => p.2.record.map (fun r => (p.1, r))) := by
    apply List.mem_filterMap.mpr
    refine ⟨(1, chainStep cfg (env 1)), List.mem_map.mpr ⟨1, hmem1, rfl⟩, ?_⟩
    simp [hr1]
  have hne := List.ne_nil_of_mem hmemrec
  have hemp : (((chainIdList N).map
      (fun i => (i, chainStep cfg (env i)))).filterMap
      (fun p => p.2.record.map (fun r => (p.1, r)))).isEmpty = false := by
    cases hc : ((chainIdList N).map
        (fun i => (i, chainStep cfg (env i)))).filterMap
        (fun p => p.2.record.map (fun r => (p.1, r))) with
    | nil => exact absurd hc hne
    | cons a t => rfl
  refine ⟨⟨((chainIdList N).map
      (fun i => (i, chainStep cfg (env i)))).map (fun p => p.2.outcome),
    ((chainIdList N).map (fun i => (i, chainStep cfg (env i)))).filterMap
      (fun p => p.2.record.map (fun r => (p.1, r))),
    ((chainIdList N).map (fun i => (i, chainStep cfg (env i)))).filterMap
      (fun p => p.2.failure.map (fun f => (p.1, f)))⟩, ?_, ?_, ?_, ?_⟩
  · unfold run
    simp only []
    rw [if_neg (fun hcond => Bool.false_ne_true (hemp ▸ hcond))]
  · simp only [List.length_map]
    unfold chainIdList
    simp [List.length_range']
  · intro o ho
    simp only [List.mem_map] at ho
    obtain ⟨p, ⟨i, hi, hip⟩, hpo⟩ := ho
    have hb := (chainIdList_mem N i).mp hi
    obtain ⟨out, hout⟩ := (hstep i hb.1 hb.2).1
    refine ⟨out, ?_⟩
    rw [← hpo, ← hip]
    exact hout
  · apply List.filterMap_eq_nil_iff.mpr
    intro p hp
    obtain ⟨i, hi, hip⟩ := List.mem_map.mp hp
    have hb := (chainIdList_mem N i).mp hi
    have hfail := (hstep i hb.1 hb.2).2.2
    rw [← hip]
    simp [hfail]

/-- C1 witness: a single chain exiting 0 with a well-formed one-draw
output file. -/
theorem run_all_success_witness :
    ∃ ro, run ⟨.sample 1 0 1 true none, 7, ("o.csv").data, none, []⟩ 1
        (fun _ => .exited 0 [] (("lp__\n1.5").data)) = .ok ro ∧
      ro.outcomes.length = 1 ∧
      (∀ o ∈ ro.outcomes, ∃ out, o = .completed out) ∧ ro.failures = [] := by
  refine run_all_success _ 1 _ (le_refl 1) ?_
  intro i h1 h2
  exact ⟨[], (("lp__\n1.5").data),
    ⟨[], [ParamName.mk (("lp__").data) []], [[mkRat 3 2]], false, []⟩,
    rfl, by decide⟩

end Orchestration

namespace Orchestration

theorem chainStep_outcome_record (cfg : RunConfig) (pr : ProcResult) :
    (∃ o, (chainStep cfg pr).outcome = .completed o) ↔
      (chainStep cfg pr).record.isSome = true := by
  cases pr with
  | exited code tl out =>
    by_cases hc : code = 0
    · cases hp : parse (isPointMode cfg.method) (expectedDraws cfg.method) out with
      | ok r => simp [chainStep, hc, hp]
      | error e => simp [chainStep, hc, hp]
    · simp [chainStep, hc]
  | timedOut => simp [chainStep]
  | launchFailed r => simp [chainStep]

/-- C2: an orchestration call in which no chain reaches `Completed`
fails with `AllChainsFailedError` (so no FitResult is produced); a call
in which at least one chain reaches `Completed` never raises
`AllChainsFailedError`. -/
theorem allChainsFailed_policy (cfg : RunConfig) (N : Nat)
    (env : Nat → ProcResult) :
    ((∀ i, 1 ≤ i → i ≤ N →
        ∀ out, (chainStep cfg (env i)).outcome ≠ .completed out) →
      fitRun cfg N env = .error .allChainsFailed) ∧
    ((∃ i out, 1 ≤ i ∧ i ≤ N ∧
        (chainStep cfg (env i)).outcome = .completed out) →
      fitRun cfg N env ≠ .error .allChainsFailed) := by
  constructor
  · intro h
    have hrec : ∀ i ∈ chainIdList N, (chainStep cfg (env i)).record = none := by
      intro i hi
      have hb := (chainIdList_mem N i).mp hi
      cases hcs : (chainStep cfg (env i)).record with
      | none => rfl
      | some r =>
        have hsome : (chainStep cfg (env i)).record.isSome = true := by
          rw [hcs]; rfl
        obtain ⟨o, ho⟩ := (chainStep_outcome_record cfg (env i)).mpr hsome
        exact absurd ho (h i hb.1 hb.2 o)
    have hnil : ((chainIdList N).map
        (fun i => (i, chainStep cfg (env i)))).filterMap
        (fun p => p.2.record.map (fun r => (p.1, r))) = [] := by
      apply List.filterMap_eq_nil_iff.mpr
      intro p hp
      obtain ⟨i, hi, hip⟩ := List.mem_map.mp hp
      rw [← hip]
      simp [hrec i hi]
    have hrun : run cfg N env = .error .allChainsFailed := by
      unfold run
      simp only []
      rw [hnil]
      rfl
    unfold fitRun
    rw [hrun]
  · rintro ⟨i, out, hi1, hi2, hout⟩
    have hsome := (chainStep_outcome_record cfg (env i)).mp ⟨out, hout⟩
    obtain ⟨r, hr⟩ := Option.isSome_iff_exists.mp hsome
    have hmemrec : (i, r) ∈ ((chainIdList N).map
        (fun j => (j, chainStep cfg (env j)))).filterMap
        (fun p => p.2.record.map (fun s => (p.1, s))) := by
      apply List.mem_filterMap.mpr
      refine ⟨(i, chainStep cfg (env i)),
        List.mem_map.mpr ⟨i, (chainIdList_mem N i).mpr ⟨hi1, hi2⟩, rfl⟩, ?_⟩
      simp [hr]
    have hne := List.ne_nil_of_mem hmemrec
    have hemp : (((chainIdList N).map
        (fun j => (j, chainStep cfg (env j)))).filterMap
        (fun p => p.2.record.map (fun s => (p.1, s)))).isEmpty = false := by
      cases hcl : ((chainIdList N).map
          (fun j => (j, chainStep cfg (env j)))).filterMap
          (fun p => p.2.record.map (fun s => (p.1, s))) with
      | nil => exact absurd hcl hne
      | cons a t => rfl
    intro hcontra
    unfold fitRun at hcontra
    unfold run at hcontra
    simp only [] at hcontra
    rw [if_neg (fun hcond => Bool.false_ne_true (hemp ▸ hcond))] at hcontra
    simp only [] at hcontra
    split at hcontra
    · cases hcontra
    · cases hcontra

/-- C2 witness: a run of one timed-out chain raises
`AllChainsFailedError`; a run of one cleanly completed chain does not. -/
theorem allChainsFailed_policy_witness :
    fitRun ⟨.sample 1 0 1 true none, 7, ("o.csv").data, none, []⟩ 1
        (fun _ => .timedOut) = .error .allChainsFailed ∧
    fitRun ⟨.sample 1 0 1 true none, 7, ("o.csv").data, none, []⟩ 1
        (fun _ => .exited 0 [] (("lp__\n1.5").data)) ≠
      .error .allChainsFailed := by
  constructor
  · exact (allChainsFailed_policy _ 1 _).1
      (fun i h1 h2 out h => by simp [chainStep] at h)
  · exact (allChainsFailed_policy _ 1 _).2
      ⟨1, ("lp__\n1.5").data, le_refl 1, le_refl 1, by decide⟩

end Orchestration

namespace Orchestration

theorem filterMap_keyed_fst {α β : Type} (l : List α) (g : α → Option β) :
    (l.filterMap (fun a => (g a).map (fun b => (a, b)))).map
        (fun p => p.1) =
      l.filter (fun a => (g a).isSome) := by
  induction l with
  | nil => rfl
  | cons a t ih =>
    cases hg : g a with
    | none => simp [List.filterMap_cons, hg, List.filter_cons, ih]
    | some b => simp [List.filterMap_cons, hg, List.filter_cons, ih]

theorem filterMap_eq_single {α β : Type} (l : List α) (f : α → Option β)
    (k : α) (b : β) (hnd : l.Nodup) (hk : k ∈ l) (hfk : f k = some b)
    (hother : ∀ x ∈ l, x ≠ k → f x = none) :
    l.filterMap f = [b] := by
  induction l with
  | nil => cases hk
  | cons a t ih =>
    rw [List.nodup_cons] at hnd
    rcases List.mem_cons.mp hk with hak | hkt
    · subst hak
      rw [List.filterMap_cons, hfk]
      have hnil : t.filterMap f = [] :=
        List.filterMap_eq_nil_iff.mpr (fun x hx =>
          hother x (List.mem_cons_of_mem _ hx) (fun hxk => hnd.1 (hxk ▸ hx)))
      simp [hnil]
    · have hak : a ≠ k := fun h => hnd.1 (h ▸ hkt)
      rw [List.filterMap_cons, hother a (List.mem_cons_self a t) hak]
      simp only []
      exact ih hnd.2 hkt
        (fun x hx hxk => hother x (List.mem_cons_of_mem _ hx) hxk)

theorem filter_ne_length {α : Type} [DecidableEq α] (l : List α) (k : α)
    (hnd : l.Nodup) (hk : k ∈ l) :
    (l.filter (fun x => decide (x ≠ k))).length = l.length - 1 := by
  induction l with
  | nil => cases hk
  | cons a t ih =>
    rw [List.nodup_cons] at hnd
    rcases List.mem_cons.mp hk with hak | hkt
    · subst hak
      rw [List.filter_cons, if_neg (by simp)]
      have hself : t.filter (fun x => decide (x ≠ k)) = t :=
        List.filter_eq_self.mpr (fun x hx => by
          simp only [decide_eq_true_eq]
          exact fun h => hnd.1 (h ▸ hx))
      simp [hself]
      exact fun x hx h => hnd.1 (h ▸ hx)
    · have hak : a ≠ k := fun h => hnd.1 (h ▸ hkt)
      have htne : t ≠ [] := List.ne_nil_of_mem hkt
      have htlen : 1 ≤ t.length := List.length_pos.mpr htne
      rw [List.filter_cons, if_pos (by simpa using hak)]
      simp only [List.length_cons, ih hnd.2 hkt]
      omega

theorem chainIdList_nodup (N : Nat) : (chainIdList N).Nodup := by
  unfold chainIdList
  exact List.nodup_range' 1 N

theorem assemble_ok_of_consistent (records : List (Nat × ParsedChainRecord))
    (fl : List (Nat × FailReason)) (hne : records ≠ [])
    (hcons : ∀ x ∈ records, ∀ y ∈ records,
      x.2.params = y.2.params ∧ x.2.isPoint = y.2.isPoint) :
    ∃ fr, assemble records fl = .ok fr ∧ fr.failures = fl ∧
      fr.chainIds = records.map (fun p => p.1) := by
  cases records with
  | nil => exact absurd rfl hne
  | cons hd rest =>
    obtain ⟨i0, r0⟩ := hd
    have hall : rest.all (fun p => decide (p.2.params = r0.params) &&
        decide (p.2.isPoint = r0.isPoint)) = true := by
      apply List.all_eq_true.mpr
      intro p hp
      have h := hcons p (List.mem_cons_of_mem _ hp) (i0, r0)
        (List.mem_cons_self _ _)
      simp [h.1, h.2]
    have heq : assemble ((i0, r0) :: rest) fl =
        .ok { params := r0.params, isPoint := r0.isPoint,
              draws := (List.map (fun p => p.2.draws)
                ((i0, r0) :: rest)).flatten,
              chainIds := List.map (fun p => p.1) ((i0, r0) :: rest),
              starts := chainStarts (List.map (fun p => p.2.draws.length)
                ((i0, r0) :: rest)),
              diagnostics := List.map (fun p => (p.1, p.2.diagnostics))
                ((i0, r0) :: rest),
              failures := fl } := by
      unfold assemble
      simp only []
      rw [if_pos hall]
    exact ⟨_, heq, rfl, rfl⟩

end Orchestration

namespace Orchestration

/-- C3: when exactly one of N > 1 chains exits nonzero and the other
N - 1 succeed with well-formed, structurally consistent output, the
orchestration still produces a FitResult built from the N - 1 succeeding
chains, and the result explicitly lists the one failed chain with its
exit code. -/
theorem partialFailure_spec (cfg : RunConfig) (N : Nat)
    (env : Nat → ProcResult) (k : Nat) (c : Int) (tl outk : List Char)
    (P0 : List ParamName) (pt : Bool)
    (hN : 1 < N) (hk1 : 1 ≤ k) (hk2 : k ≤ N)
    (henvk : env k = .exited c tl outk) (hc : c ≠ 0)
    (hok : ∀ i, 1 ≤ i → i ≤ N → i ≠ k → ∃ tli outi reci,
      env i = .exited 0 tli outi ∧
      parse (isPointMode cfg.method) (expectedDraws cfg.method) outi =
        .ok reci ∧
      reci.params = P0 ∧ reci.isPoint = pt) :
    ∃ outs fr, fitRun cfg N env = .ok (outs, fr) ∧
      fr.failures = [(k, .nonzeroExit c tl)] ∧
      fr.chainIds = (chainIdList N).filter (fun i => i ≠ k) ∧
      fr.chainIds.length = N - 1 := by
  have hkstep : chainStep cfg (env k) =
      ⟨.failed c tl, none, some (.nonzeroExit c tl)⟩ := by
    rw [henvk]
    simp [chainStep, hc]
  have histep : ∀ i, 1 ≤ i → i ≤ N → i ≠ k →
      (∃ reci, (chainStep cfg (env i)).record = some reci ∧
        reci.params = P0 ∧ reci.isPoint = pt) ∧
      (chainStep cfg (env i)).failure = none := by
    intro i h1 h2 hne
    obtain ⟨tli, outi, reci, he, hp, hP, hpt⟩ := hok i h1 h2 hne
    rw [he]
    refine ⟨⟨reci, ?_, hP, hpt⟩, ?_⟩ <;> simp [chainStep, hp]
  have hrecmem : ∀ x ∈ ((chainIdList N).map
      (fun i => (i, chainStep cfg (env i)))).filterMap
      (fun p => p.2.record.map (fun r => (p.1, r))),
      x.2.params = P0 ∧ x.2.isPoint = pt := by
    intro x hx
    simp only [List.mem_filterMap, List.mem_map] at hx
    obtain ⟨p, ⟨i, hi, hip⟩, hsome⟩ := hx
    rw [← hip] at hsome
    simp only [Option.map_eq_some'] at hsome
    obtain ⟨r, hr, hxr⟩ := hsome
    have hb := (chainIdList_mem N i).mp hi
    by_cases hik : i = k
    · subst hik
      rw [hkstep] at hr
      cases hr
    · obtain ⟨⟨reci, hreci, hP, hptq⟩, -⟩ := histep i hb.1 hb.2 hik
      rw [hreci] at hr
      obtain rfl := Option.some.inj hr
      rw [← hxr]
      exact ⟨hP, hptq⟩
  obtain ⟨i0, hi01, hi02, hi0k⟩ : ∃ i0, 1 ≤ i0 ∧ i0 ≤ N ∧ i0 ≠ k := by
    by_cases hke : k = 1
    · exact ⟨2, by omega, by omega, by omega⟩
    · exact ⟨1, by omega, by omega, by omega⟩
  obtain ⟨⟨rec0, hrec0, -, -⟩, -⟩ := histep i0 hi01 hi02 hi0k
  have hmem0 : (i0, rec0) ∈ ((chainIdList N).map
      (fun i => (i, chainStep cfg (env i)))).filterMap
      (fun p => p.2.record.map (fun r => (p.1, r))) := by
    apply List.mem_filterMap.mpr
    refine ⟨(i0, chainStep cfg (env i0)),
      List.mem_map.mpr ⟨i0, (chainIdList_mem N i0).mpr ⟨hi01, hi02⟩, rfl⟩, ?_⟩
    simp [hrec0]
  have hneR := List.ne_nil_of_mem hmem0
  have hempR : (((chainIdList N).map
      (fun i => (i, chainStep cfg (env i)))).filterMap
      (fun p => p.2.record.map (fun r => (p.1, r)))).isEmpty = false := by
    cases hcs : ((chainIdList N).map
        (fun i => (i, chainStep cfg (env i)))).filterMap
        (fun p => p.2.record.map (fun r => (p.1, r))) with
    | nil => exact absurd hcs hneR
    | cons a t => rfl
  have hfails : ((chainIdList N).map
      (fun i => (i, chainStep cfg (env i)))).filterMap
      (fun p => p.2.failure.map (fun f => (p.1, f))) =
      [(k, .nonzeroExit c tl)] := by
    rw [List.filterMap_map]
    apply filterMap_eq_single _ _ k _ (chainIdList_nodup N)
      ((chainIdList_mem N k).mpr ⟨hk1, hk2⟩)
    · simp [Function.comp, hkstep]
    · intro x hx hxk
      have hb := (chainIdList_mem N x).mp hx
      obtain ⟨-, hfail⟩ := histep x hb.1 hb.2 hxk
      simp [Function.comp, hfail]
  have hids : (((chainIdList N).map
      (fun i => (i, chainStep cfg (env i)))).filterMap
      (fun p => p.2.record.map (fun r => (p.1, r)))).map (fun p => p.1) =
      (chainIdList N).filter (fun i => decide (i ≠ k)) := by
    rw [List.filterMap_map]
    have hcomp : ((fun p : Nat × ChainStep =>
        p.2.record.map (fun r => (p.1, r))) ∘
        (fun i => (i, chainStep cfg (env i)))) =
        (fun i => ((chainStep cfg (env i)).record).map (fun r => (i, r))) :=
      rfl
    rw [hcomp,
      filterMap_keyed_fst (chainIdList N)
        (fun i => (chainStep cfg (env i)).record)]
    apply List.filter_congr
    intro i hi
    have hb := (chainIdList_mem N i).mp hi
    by_cases hik : i = k
    · subst hik
      rw [hkstep]
      simp
    · obtain ⟨⟨reci, hreci, -, -⟩, -⟩ := histep i hb.1 hb.2 hik
      rw [hreci]
      simp [hik]
  have hcons : ∀ x ∈ ((chainIdList N).map
      (fun i => (i, chainStep cfg (env i)))).filterMap
      (fun p => p.2.record.map (fun r => (p.1, r))),
      ∀ y ∈ ((chainIdList N).map
      (fun i => (i, chainStep cfg (env i)))).filterMap
      (fun p => p.2.record.map (fun r => (p.1, r))),
      x.2.params = y.2.params ∧ x.2.isPoint = y.2.isPoint := by
    intro x hx y hy
    obtain ⟨hxp, hxi⟩ := hrecmem x hx
    obtain ⟨hyp, hyi⟩ := hrecmem y hy
    rw [hxp, hyp, hxi, hyi]
    exact ⟨rfl, rfl⟩
  obtain ⟨fr, hassemble, hfl, hfrids⟩ :=
    assemble_ok_of_consistent _
      (((chainIdList N).map (fun i => (i, chainStep cfg (env i)))).filterMap
        (fun p => p.2.failure.map (fun f => (p.1, f)))) hneR hcons
  refine ⟨((chainIdList N).map
      (fun i => (i, chainStep cfg (env i)))).map (fun p => p.2.outcome),
    fr, ?_, ?_, ?_, ?_⟩
  · unfold fitRun run
    simp only []
    rw [if_neg (fun hcond => Bool.false_ne_true (hempR ▸ hcond))]
    simp only []
    rw [hassemble]
  · rw [hfl, hfails]
  · rw [hfrids, hids]
  · rw [hfrids, hids,
      filter_ne_length _ k (chainIdList_nodup N)
        ((chainIdList_mem N k).mpr ⟨hk1, hk2⟩)]
    unfold chainIdList
    rw [List.length_range']

end Orchestration

namespace Orchestration

/-- C3 witness: two chains, the first exiting with code 3, the second
succeeding with a one-draw file. -/
theorem partialFailure_spec_witness :
    ∃ outs fr, fitRun ⟨.sample 1 0 1 true none, 7, ("o.csv").data, none, []⟩ 2
        (fun i => if i = 1 then .exited 3 (("boom").data) []
          else .exited 0 [] (("lp__\n1.5").data)) = .ok (outs, fr) ∧
      fr.failures = [(1, .nonzeroExit 3 (("boom").data))] ∧
      fr.chainIds = (chainIdList 2).filter (fun i => i ≠ 1) ∧
      fr.chainIds.length = 2 - 1 := by
  refine partialFailure_spec _ 2 _ 1 3 (("boom").data) []
    [ParamName.mk (("lp__").data) []] false (by omega) (le_refl 1)
    (by omega) rfl (by decide) ?_
  intro i h1 h2 hne
  have hi2 : i = 2 := by omega
  subst hi2
  exact ⟨[], ("lp__\n1.5").data,
    ⟨[], [ParamName.mk (("lp__").data) []], [[mkRat 3 2]], false, []⟩,
    rfl, by decide, rfl, rfl⟩

/-- C7 witness: the round-trip evaluated on a concrete sampling
configuration with a step size, an init file and one passthrough
argument. -/
theorem argumentBuilder_spec_witness :
    parseArgs (build ⟨("./model").data, ("model").data⟩
        ⟨.sample 5 2 1 false (some (mkRat 1 2)), 42, ("out.csv").data,
          some (("init.json").data), [(("foo").data, ("bar").data)]⟩ 3) =
      some ((("./model").data),
        ⟨.sample 5 2 1 false (some (mkRat 1 2)), 42, ("out.csv").data,
          some (("init.json").data), [(("foo").data, ("bar").data)]⟩, 3) :=
  (argumentBuilder_spec ⟨("./model").data, ("model").data⟩
    ⟨.sample 5 2 1 false (some (mkRat 1 2)), 42, ("out.csv").data,
      some (("init.json").data), [(("foo").data, ("bar").data)]⟩ 3
    (by decide)).2

end Orchestration
